import Mathlib

/- Verification of the osh shell (src/osh.c): the lexer, the command-chain
   parser, and the observable behaviour of one iteration of the main
   read-eval loop.  C strings are modelled as List Char; the lexer works on
   an immutable content buffer plus a byte cursor, exactly like the C Lexer
   struct (content, len, pos).  Loops are modelled with an explicit fuel
   argument that provably dominates the number of iterations the C loop can
   perform (every iteration advances the cursor by at least one byte). -/

namespace Osh

/-- MAX_LINE, osh.c line 13. -/
def MAX_LINE : Nat := 80

/-- MAX_ARGS, osh.c line 14: MAX_LINE / 2 = 40. -/
def MAX_ARGS : Nat := MAX_LINE / 2

/-- TokKind enum, osh.c lines 19-27. -/
inductive TokKind where
  | T_EOF
  | T_AMP
  | T_DBANG
  | T_OUT
  | T_IN
  | T_PIPE
  | T_WORD
deriving DecidableEq, Repr

/-- Span, osh.c line 29. -/
structure Span where
  start : Nat
  size : Nat
deriving DecidableEq, Repr

/-- Token, osh.c lines 31-35.  word is NULL (none) except for T_WORD. -/
structure Token where
  kind : TokKind
  pos : Span
  word : Option (List Char)
deriving DecidableEq, Repr

/-- lex_peek, osh.c lines 57-61: returns none where the C code returns -1. -/
def lex_peek (content : List Char) (pos off : Nat) : Option Char :=
  content[pos + off]?

/-- lex_advance, osh.c lines 63-66: advance the cursor, clamped at len. -/
def lex_advance (content : List Char) (pos n : Nat) : Nat :=
  min (pos + n) content.length

/-- make_n_char_token, osh.c lines 68-72: a payload-free token of n chars
    starting at the cursor; returns the token and the advanced cursor. -/
def make_n_char_token (content : List Char) (pos : Nat) (k : TokKind) (n : Nat) :
    Token × Nat :=
  (⟨k, ⟨pos, n⟩, none⟩, lex_advance content pos n)

/-- is_ws, osh.c line 87. -/
def is_ws (c : Char) : Bool :=
  c == ' ' || c == '\t' || c == '\r'

/-- is_word, osh.c line 100. -/
def is_word (c : Char) : Bool :=
  !(is_ws c || c == '&' || c == '>' || c == '<' || c == '|')

/-- read_span_len, osh.c lines 75-85: the length of the maximal run of
    characters satisfying fn that starts at the cursor (0 when the first
    character is absent or fails fn). -/
def read_span_len (content : List Char) (pos : Nat) (fn : Char → Bool) : Nat :=
  ((content.drop pos).takeWhile fn).length

/-- skip_ws loop body, osh.c lines 89-98; the fuel dominates the number of
    iterations: when it reaches 0 the cursor is already at the end. -/
def skip_ws_aux (content : List Char) : Nat → Nat → Nat
  | 0, pos => pos
  | fuel+1, pos =>
    match content[pos]? with
    | some c => if is_ws c then skip_ws_aux content fuel (pos + 1) else pos
    | none => pos

/-- skip_ws, osh.c lines 89-98. -/
def skip_ws (content : List Char) (pos : Nat) : Nat :=
  skip_ws_aux content (content.length - pos) pos

/-- make_word_token, osh.c lines 102-111: copy out the maximal is_word run. -/
def make_word_token (content : List Char) (pos : Nat) : Token × Nat :=
  (⟨.T_WORD, ⟨pos, read_span_len content pos is_word⟩,
     some ((content.drop pos).take (read_span_len content pos is_word))⟩,
   lex_advance content pos (read_span_len content pos is_word))

/-- next_token, osh.c lines 113-131. -/
def next_token (content : List Char) (pos : Nat) : Token × Nat :=
  let p := skip_ws content pos
  match lex_peek content p 0 with
  | none => make_n_char_token content p .T_EOF 1
  | some c =>
    if c == '\n' then make_n_char_token content p .T_EOF 1
    else if c == '&' then make_n_char_token content p .T_AMP 1
    else if c == '!' then
      if lex_peek content p 1 == some '!' then make_n_char_token content p .T_DBANG 2
      else make_word_token content p
    else if c == '>' then make_n_char_token content p .T_OUT 1
    else if c == '<' then make_n_char_token content p .T_IN 1
    else if c == '|' then make_n_char_token content p .T_PIPE 1
    else make_word_token content p

/-- Cmd, osh.c lines 147-156.  The recursive pipe_cmd pointer is modelled
    outside the node: a whole chain is the node list [head, head.pipe_cmd,
    head.pipe_cmd.pipe_cmd, ...], so a node's pipe_cmd link being NULL
    corresponds to that node being the last element of the list.  argc is
    always argv.length, so it is not a separate field. -/
structure Cmd where
  argv : List (List Char)
  is_background : Bool
  uses_history : Bool
  redir_in_path : Option (List Char)
  redir_out_path : Option (List Char)
deriving DecidableEq, Repr

/-- argc, osh.c line 150. -/
def Cmd.argc (c : Cmd) : Nat := c.argv.length

/-- cmd_init, osh.c lines 158-167. -/
def cmd_init : Cmd :=
  ⟨[], false, false, none, none⟩

/-- out->argv[out->argc++] = tok.word, osh.c line 184. -/
def Cmd.add_arg (c : Cmd) (w : List Char) : Cmd :=
  { c with argv := c.argv ++ [w] }

/-- The code parse_cmd returns at osh.c lines 253-254: 1 when the head node
    has no arguments and no redirections, else 0 (writing the argv NULL
    terminator is implicit in the list model). -/
def parse_finish (cur : Cmd) (rest : List Cmd) : Int × Cmd × List Cmd :=
  (if cur.argc = 0 ∧ cur.redir_in_path = none ∧ cur.redir_out_path = none
     then (1 : Int) else 0,
   cur, rest)

/-- The for(;;) token loop of parse_cmd, osh.c lines 180-251, operating on
    the current node cur and the already-detached upstream chain rest
    (cur :: rest is the chain hanging off the C out pointer).  Each loop
    iteration strictly advances the cursor, so fuel = content.length + 2
    can never run out; the -3 fuel-exhaustion code is unreachable from
    parse_cmd and distinct from every code the C function returns. -/
def parse_loop (content : List Char) : Nat → Nat → Cmd → List Cmd → Int × Cmd × List Cmd
  | 0, _, cur, rest => (-3, cur, rest)
  | fuel+1, pos, cur, rest =>
    let tp := next_token content pos
    match tp.1.kind with
    | .T_WORD =>
      -- collect words, osh.c lines 182-187
      if MAX_ARGS ≤ cur.argc then (-1, cur, rest)
      else parse_loop content fuel tp.2 (cur.add_arg (tp.1.word.getD [])) rest
    | .T_OUT =>
      -- handle redirs, osh.c lines 190-207 (the T_IN-only checks skipped)
      if cur.redir_out_path ≠ none then (-2, cur, rest)
      else
        let t2 := next_token content tp.2
        if t2.1.kind ≠ .T_WORD then (-2, cur, rest)
        else parse_loop content fuel t2.2
               { cur with redir_out_path := some (t2.1.word.getD []) } rest
    | .T_IN =>
      -- osh.c line 194: a pipe sink cannot also take a file input
      if rest ≠ [] then (-2, cur, rest)
      -- osh.c line 197: duplicate redirect
      else if cur.redir_in_path ≠ none then (-2, cur, rest)
      else
        let t2 := next_token content tp.2
        if t2.1.kind ≠ .T_WORD then (-2, cur, rest)
        else parse_loop content fuel t2.2
               { cur with redir_in_path := some (t2.1.word.getD []) } rest
    | .T_PIPE =>
      -- handle pipes, osh.c lines 210-234
      if cur.argc = 0 ∧ cur.redir_in_path = none ∧ cur.redir_out_path = none
        then (-2, cur, rest)
      else if cur.redir_out_path ≠ none then (-2, cur, rest)
      else parse_loop content fuel tp.2 cmd_init (cur :: rest)
    | .T_AMP =>
      -- background, osh.c lines 237-244: mark, then require end of line
      let t2 := next_token content tp.2
      if t2.1.kind ≠ .T_EOF then (-2, { cur with is_background := true }, rest)
      else parse_finish { cur with is_background := true } rest
    | .T_EOF => parse_finish cur rest
    | .T_DBANG =>
      -- unsupported token position, osh.c line 250
      (-2, cur, rest)

/-- parse_cmd, osh.c lines 169-255.  out is the caller-supplied node the C
    function parses into (cmd_init from main line 363, or the previous cmd
    during a history reparse, main line 378).  Returns the C result code
    together with the chain cur :: rest reachable from out. -/
def parse_cmd (content : List Char) (out : Cmd) : Int × Cmd × List Cmd :=
  let tp := next_token content 0
  if tp.1.kind = .T_DBANG then
    -- "!!" only, no junk after: osh.c lines 173-178
    let t2 := next_token content tp.2
    if t2.1.kind ≠ .T_EOF then (-2, out, [])
    else (0, { out with uses_history := true }, [])
  else parse_loop content (content.length + 2) 0 out []

/-- The observable outcome of one iteration of main's for(;;) loop,
    osh.c lines 347-405.  ran means the fork at line 388 happened and the
    child exec'd the chain. -/
inductive CycleOut where
  | empty_line
  | exited
  | parse_empty
  | too_many_args
  | parse_error
  | no_history
  | history_error
  | empty_args
  | ran (cur : Cmd) (rest : List Cmd)
deriving DecidableEq, Repr

/-- The newline strip at osh.c line 354: buf[strcspn(buf, newline)] = 0. -/
def strip_line (buf : List Char) : List Char :=
  buf.takeWhile (fun c => c ≠ '\n')

/-- The tail of main's loop body, osh.c lines 384-404: skip when the (post
    history substitution) command has no arguments, else fork and execute. -/
def post_parse (cur : Cmd) (rest : List Cmd) (prev2 : List Char) :
    CycleOut × List Char :=
  if cur.argc = 0 then (.empty_args, prev2) else (.ran cur rest, prev2)

/-- One iteration of main's loop, osh.c lines 347-405, as a function from
    (history slot, raw input line) to (outcome, new history slot). -/
def main_cycle (prev_buf buf : List Char) : CycleOut × List Char :=
  let line := strip_line buf
  if line = [] then (.empty_line, prev_buf)
  else if line = "exit".data then (.exited, prev_buf)
  else
    let r := parse_cmd line cmd_init
    if r.1 = 1 then (.parse_empty, prev_buf)
    else if r.1 = -1 then (.too_many_args, prev_buf)
    else if r.1 = -2 then (.parse_error, prev_buf)
    else if r.2.1.uses_history then
      if prev_buf = [] then (.no_history, prev_buf)
      else
        -- relex and reparse with the previous line into the same cmd,
        -- osh.c lines 377-379
        let r2 := parse_cmd prev_buf r.2.1
        if r2.1 ≠ 0 then (.history_error, prev_buf)
        else post_parse r2.2.1 r2.2.2 prev_buf
    else post_parse r.2.1 r.2.2 line

/-- True exactly when the cycle reached the fork at osh.c line 388. -/
def creates_process : CycleOut → Bool
  | .ran _ _ => true
  | _ => false

/-- exec_cmd, osh.c lines 294-340, walks the chain forking one process per
    upstream stage and finally calls execvp(cmd->argv[0], cmd->argv) in
    each process (line 334): the argument vectors handed to execvp during a
    cycle are exactly the argv of every node of the executed chain. -/
def chain_argvs (cur : Cmd) (rest : List Cmd) : List (List (List Char)) :=
  (cur :: rest).map Cmd.argv

/-- The argument vectors execvp receives during one main-loop cycle. -/
def exec_argvs : CycleOut → List (List (List Char))
  | .ran cur rest => chain_argvs cur rest
  | _ => []

-- ### Lexer lemmas

theorem skip_ws_aux_not_ws (content : List Char) (fuel pos : Nat)
    (h : ∀ c, content[pos]? = some c → is_ws c = false) :
    skip_ws_aux content fuel pos = pos := by
  cases fuel with
  | zero => rfl
  | succ f =>
    simp only [skip_ws_aux]
    cases hc : content[pos]? with
    | none => rfl
    | some c => simp [h c hc]

theorem skip_ws_not_ws (content : List Char) (pos : Nat)
    (h : ∀ c, content[pos]? = some c → is_ws c = false) :
    skip_ws content pos = pos :=
  skip_ws_aux_not_ws content _ pos h

theorem skip_ws_ws_step (content : List Char) (pos : Nat) (c : Char)
    (hc : content[pos]? = some c) (hws : is_ws c = true) :
    skip_ws content pos = skip_ws content (pos + 1) := by
  obtain ⟨hlt, -⟩ := List.getElem?_eq_some.mp hc
  unfold skip_ws
  rw [show content.length - pos = (content.length - (pos + 1)) + 1 by omega]
  simp only [skip_ws_aux, hc, hws, if_true]

theorem skip_ws_at_len (content : List Char) (pos : Nat)
    (h2 : content.length ≤ pos) : skip_ws content pos = pos :=
  skip_ws_not_ws content pos fun c hc => by
    rw [List.getElem?_len_le h2] at hc
    exact absurd hc (by simp)

theorem skip_ws_all_ws (content : List Char) (h : ∀ c ∈ content, is_ws c = true) :
    ∀ k pos, content.length - pos ≤ k → pos ≤ content.length →
      skip_ws content pos = content.length := by
  intro k
  induction k with
  | zero =>
    intro pos h1 h2
    have hp : pos = content.length := by omega
    rw [hp, skip_ws_at_len content _ (le_refl _)]
  | succ k ih =>
    intro pos h1 h2
    by_cases hp : pos = content.length
    · rw [hp, skip_ws_at_len content _ (le_refl _)]
    · have hlt : pos < content.length := by omega
      have hc : content[pos]? = some content[pos] := List.getElem?_eq_getElem hlt
      have hwsc : is_ws content[pos] = true := h _ (List.getElem_mem hlt)
      rw [skip_ws_ws_step content pos _ hc hwsc]
      exact ih (pos + 1) (by omega) (by omega)

theorem next_token_ws_step (content : List Char) (pos : Nat) (c : Char)
    (hc : content[pos]? = some c) (hws : is_ws c = true) :
    next_token content pos = next_token content (pos + 1) := by
  unfold next_token
  rw [skip_ws_ws_step content pos c hc hws]

theorem is_word_spec (c : Char) (h : is_word c = true) :
    is_ws c = false ∧ c ≠ '&' ∧ c ≠ '>' ∧ c ≠ '<' ∧ c ≠ '|' := by
  unfold is_word at h
  simp only [Bool.not_eq_true', Bool.or_eq_false_iff, beq_eq_false_iff_ne] at h
  exact ⟨h.1.1.1.1, h.1.1.1.2, h.1.1.2, h.1.2, h.2⟩

theorem takeWhile_append_of_all (p : Char → Bool) :
    ∀ w t : List Char, (∀ c ∈ w, p c = true) →
      List.takeWhile p (w ++ t) = w ++ List.takeWhile p t := by
  intro w
  induction w with
  | nil => intro t _; rfl
  | cons c w' ih =>
    intro t hall
    simp only [List.cons_append, List.takeWhile_cons, hall c (by simp), if_true]
    rw [ih t fun d hd => hall d (by simp [hd])]

/-- Lexing at the start of a maximal word run: the produced token is the
    whole run, copied out, and the cursor lands just past it. -/
theorem next_token_word (content : List Char) (pos : Nat) (w t : List Char)
    (hd : content.drop pos = w ++ t)
    (hw : w ≠ [])
    (hcs : ∀ c ∈ w, is_word c = true ∧ c ≠ '\n' ∧ c ≠ '!')
    (hb : t = [] ∨ ∃ c0 t', t = c0 :: t' ∧ is_word c0 = false) :
    next_token content pos = (⟨.T_WORD, ⟨pos, w.length⟩, some w⟩, pos + w.length) := by
  obtain ⟨c, w', rfl⟩ : ∃ c w', w = c :: w' := by
    cases w with
    | nil => exact absurd rfl hw
    | cons c w' => exact ⟨c, w', rfl⟩
  have hc : content[pos]? = some c := by
    have h0 : (content.drop pos)[0]? = some c := by
      rw [hd, List.cons_append, List.getElem?_cons_zero]
    rwa [List.getElem?_drop, Nat.add_zero] at h0
  obtain ⟨hwc, hnl, hbang⟩ := hcs c (by simp)
  obtain ⟨hnw, hamp, hgt, hlt, hpipe⟩ := is_word_spec c hwc
  have hskip : skip_ws content pos = pos :=
    skip_ws_not_ws content pos fun d hdd => by
      rw [hc] at hdd; injection hdd with h; rw [← h]; exact hnw
  have hlen : pos + (c :: w').length ≤ content.length := by
    obtain ⟨hplt, -⟩ := List.getElem?_eq_some.mp hc
    have : (content.drop pos).length = content.length - pos := List.length_drop pos content
    rw [hd] at this
    simp only [List.length_append] at this
    omega
  have hspan : read_span_len content pos is_word = (c :: w').length := by
    unfold read_span_len
    rw [hd, takeWhile_append_of_all is_word (c :: w') t fun d hdm => (hcs d hdm).1]
    rcases hb with rfl | ⟨c0, t', rfl, hc0⟩
    · simp
    · simp [List.takeWhile_cons, hc0]
  have hword : (content.drop pos).take (read_span_len content pos is_word) = c :: w' := by
    rw [hspan, hd]
    exact List.take_left _ _
  have hmin : min (pos + (c :: w').length) content.length = pos + (c :: w').length :=
    Nat.min_eq_left hlen
  simp [next_token, lex_peek, hskip, Nat.add_zero, hc, beq_iff_eq, hnl, hamp,
    hbang, hgt, hlt, hpipe, make_word_token, hspan, hword, lex_advance, hmin]
  exact ⟨by simpa [hspan] using hword, by simpa using hlen⟩

/-- C9 amended, part used by other lemmas as well: next_token yields the
    end-of-input token exactly when the first character at or after the
    whitespace-skipped cursor is absent or is a line-feed. -/
theorem next_token_eof_iff (content : List Char) (pos : Nat) :
    (next_token content pos).1.kind = .T_EOF ↔
      (content[skip_ws content pos]? = none ∨
       content[skip_ws content pos]? = some '\n') := by
  unfold next_token lex_peek
  simp only [Nat.add_zero]
  cases hc : content[skip_ws content pos]? with
  | none => simp [make_n_char_token]
  | some c =>
    by_cases h1 : c = '\n'
    · subst h1; simp [make_n_char_token]
    · by_cases h2 : c = '&'
      · subst h2; simp [make_n_char_token]
      · by_cases h3 : c = '!'
        · subst h3
          cases hpk : content[skip_ws content pos + 1]? == some '!' <;>
            simp [hpk, make_n_char_token, make_word_token]
        · by_cases h4 : c = '>'
          · subst h4; simp [make_n_char_token]
          · by_cases h5 : c = '<'
            · subst h5; simp [make_n_char_token]
            · by_cases h6 : c = '|'
              · subst h6; simp [make_n_char_token]
              · simp [h1, h2, h3, h4, h5, h6, make_n_char_token, make_word_token]

theorem parse_loop_congr (content : List Char) (pos pos2 : Nat)
    (h : next_token content pos = next_token content pos2) :
    ∀ fuel cur rest,
      parse_loop content fuel pos cur rest = parse_loop content fuel pos2 cur rest := by
  intro fuel cur rest
  cases fuel with
  | zero => rfl
  | succ f => simp only [parse_loop, h]

-- ### Parser step lemmas (one unfolding of the osh.c lines 180-251 loop)

theorem parse_loop_word_cap (content : List Char) (fuel pos : Nat) (cur : Cmd)
    (rest : List Cmd) (hk : (next_token content pos).1.kind = .T_WORD)
    (hc : MAX_ARGS ≤ cur.argc) :
    parse_loop content (fuel + 1) pos cur rest = (-1, cur, rest) := by
  simp only [parse_loop, hk, if_pos hc]

theorem parse_loop_pipe_err (content : List Char) (fuel pos : Nat) (cur : Cmd)
    (rest : List Cmd) (hk : (next_token content pos).1.kind = .T_PIPE)
    (h : (cur.argc = 0 ∧ cur.redir_in_path = none ∧ cur.redir_out_path = none) ∨
         cur.redir_out_path ≠ none) :
    parse_loop content (fuel + 1) pos cur rest = (-2, cur, rest) := by
  simp only [parse_loop, hk]
  rcases h with h | h
  · rw [if_pos h]
  · by_cases he : cur.argc = 0 ∧ cur.redir_in_path = none ∧ cur.redir_out_path = none
    · rw [if_pos he]
    · rw [if_neg he, if_pos h]

theorem parse_loop_pipe_step (content : List Char) (fuel pos : Nat) (cur : Cmd)
    (rest : List Cmd) (hk : (next_token content pos).1.kind = .T_PIPE)
    (h1 : ¬(cur.argc = 0 ∧ cur.redir_in_path = none ∧ cur.redir_out_path = none))
    (h2 : cur.redir_out_path = none) :
    parse_loop content (fuel + 1) pos cur rest =
      parse_loop content fuel (next_token content pos).2 cmd_init (cur :: rest) := by
  simp only [parse_loop, hk, if_neg h1]
  rw [if_neg (by simp [h2])]

theorem parse_loop_amp (content : List Char) (fuel pos : Nat) (cur : Cmd)
    (rest : List Cmd) (hk : (next_token content pos).1.kind = .T_AMP) :
    parse_loop content (fuel + 1) pos cur rest =
      if (next_token content (next_token content pos).2).1.kind ≠ .T_EOF
        then (-2, { cur with is_background := true }, rest)
        else parse_finish { cur with is_background := true } rest := by
  simp only [parse_loop, hk]

theorem parse_loop_in_dup (content : List Char) (fuel pos : Nat) (cur : Cmd)
    (rest : List Cmd) (hk : (next_token content pos).1.kind = .T_IN)
    (h : cur.redir_in_path ≠ none) :
    parse_loop content (fuel + 1) pos cur rest = (-2, cur, rest) := by
  simp only [parse_loop, hk]
  by_cases hr : rest ≠ []
  · rw [if_pos hr]
  · rw [if_neg hr, if_pos h]

theorem parse_loop_out_dup (content : List Char) (fuel pos : Nat) (cur : Cmd)
    (rest : List Cmd) (hk : (next_token content pos).1.kind = .T_OUT)
    (h : cur.redir_out_path ≠ none) :
    parse_loop content (fuel + 1) pos cur rest = (-2, cur, rest) := by
  simp only [parse_loop, hk, if_pos h]

-- ### Chain invariants (spec section 3)

/-- Pipe sinks: every chain node that has an upstream link (every node of
    the list except the last one) has no input redirection. -/
def sink_ok : List Cmd → Bool
  | [] => true
  | [_] => true
  | c :: c2 :: r => c.redir_in_path.isNone && sink_ok (c2 :: r)

/-- All nodes of the list have no output redirection. -/
def outs_ok : List Cmd → Bool
  | [] => true
  | c :: r => c.redir_out_path.isNone && outs_ok r

/-- Pipe sources: every chain node that is some node's upstream (every node
    except the head) has no output redirection. -/
def src_ok : List Cmd → Bool
  | [] => true
  | _ :: r => outs_ok r

theorem sink_ok_head (c' c : Cmd) (r : List Cmd)
    (h : c'.redir_in_path = c.redir_in_path)
    (hs : sink_ok (c :: r) = true) : sink_ok (c' :: r) = true := by
  cases r with
  | nil => rfl
  | cons c2 r' => simpa [sink_ok, h] using hs

theorem src_ok_head (c' c : Cmd) (r : List Cmd) :
    src_ok (c' :: r) = src_ok (c :: r) := rfl

theorem parse_loop_inv (content : List Char) :
    ∀ fuel pos cur rest,
      sink_ok (cur :: rest) = true → src_ok (cur :: rest) = true →
      sink_ok ((parse_loop content fuel pos cur rest).2.1 ::
               (parse_loop content fuel pos cur rest).2.2) = true ∧
      src_ok ((parse_loop content fuel pos cur rest).2.1 ::
              (parse_loop content fuel pos cur rest).2.2) = true := by
  intro fuel
  induction fuel with
  | zero =>
    intro pos cur rest h1 h2
    exact ⟨h1, h2⟩
  | succ f ih =>
    intro pos cur rest h1 h2
    cases hk : (next_token content pos).1.kind with
    | T_WORD =>
      simp only [parse_loop, hk]
      split
      · exact ⟨h1, h2⟩
      · apply ih
        · exact sink_ok_head _ cur _ rfl h1
        · exact h2
    | T_OUT =>
      simp only [parse_loop, hk]
      split
      · exact ⟨h1, h2⟩
      · split
        · exact ⟨h1, h2⟩
        · apply ih
          · exact sink_ok_head _ cur _ rfl h1
          · exact h2
    | T_IN =>
      simp only [parse_loop, hk]
      split
      · exact ⟨h1, h2⟩
      · split
        · exact ⟨h1, h2⟩
        · split
          · exact ⟨h1, h2⟩
          · rename_i hrest hdup hw
            have hr : rest = [] := not_not.mp hrest
            rw [hr]
            apply ih
            · simp [sink_ok]
            · simp [src_ok, outs_ok]
    | T_PIPE =>
      simp only [parse_loop, hk]
      split
      · exact ⟨h1, h2⟩
      · split
        · exact ⟨h1, h2⟩
        · rename_i hne hout
          have hout' : cur.redir_out_path = none := not_not.mp hout
          have h2' : outs_ok rest = true := by simpa [src_ok] using h2
          apply ih
          · simp [sink_ok, cmd_init, h1]
          · simp [src_ok, outs_ok, hout', h2']
    | T_AMP =>
      simp only [parse_loop, hk, parse_finish]
      split
      · exact ⟨sink_ok_head _ cur _ rfl h1, h2⟩
      · exact ⟨sink_ok_head _ cur _ rfl h1, h2⟩
    | T_EOF =>
      simp only [parse_loop, hk, parse_finish]
      exact ⟨h1, h2⟩
    | T_DBANG =>
      simp only [parse_loop, hk]
      exact ⟨h1, h2⟩

/-- Codes of the parse loop: 1 is returned with an empty head node, 0 with
    a non-empty one, and the loop never turns on the uses_history flag. -/
theorem parse_loop_codes (content : List Char) :
    ∀ fuel pos cur rest,
      ((parse_loop content fuel pos cur rest).1 = 1 →
        ((parse_loop content fuel pos cur rest).2.1.argc = 0 ∧
         (parse_loop content fuel pos cur rest).2.1.redir_in_path = none ∧
         (parse_loop content fuel pos cur rest).2.1.redir_out_path = none)) ∧
      ((parse_loop content fuel pos cur rest).1 = 0 →
        ¬((parse_loop content fuel pos cur rest).2.1.argc = 0 ∧
          (parse_loop content fuel pos cur rest).2.1.redir_in_path = none ∧
          (parse_loop content fuel pos cur rest).2.1.redir_out_path = none)) ∧
      ((parse_loop content fuel pos cur rest).2.1.uses_history = cur.uses_history ∨
       (parse_loop content fuel pos cur rest).2.1.uses_history = false) := by
  intro fuel
  induction fuel with
  | zero =>
    intro pos cur rest
    refine ⟨fun h => by simp [parse_loop] at h, fun h => by simp [parse_loop] at h,
      Or.inl (by simp [parse_loop])⟩
  | succ f ih =>
    intro pos cur rest
    cases hk : (next_token content pos).1.kind with
    | T_WORD =>
      simp only [parse_loop, hk]
      split
      · exact ⟨fun h => by simp at h, fun h => by simp at h, Or.inl (by simp)⟩
      · exact ih _ _ _
    | T_OUT =>
      simp only [parse_loop, hk]
      split
      · exact ⟨fun h => by simp at h, fun h => by simp at h, Or.inl (by simp)⟩
      · split
        · exact ⟨fun h => by simp at h, fun h => by simp at h, Or.inl (by simp)⟩
        · exact ih _ _ _
    | T_IN =>
      simp only [parse_loop, hk]
      split
      · exact ⟨fun h => by simp at h, fun h => by simp at h, Or.inl (by simp)⟩
      · split
        · exact ⟨fun h => by simp at h, fun h => by simp at h, Or.inl (by simp)⟩
        · split
          · exact ⟨fun h => by simp at h, fun h => by simp at h, Or.inl (by simp)⟩
          · exact ih _ _ _
    | T_PIPE =>
      simp only [parse_loop, hk]
      split
      · exact ⟨fun h => by simp at h, fun h => by simp at h, Or.inl (by simp)⟩
      · split
        · exact ⟨fun h => by simp at h, fun h => by simp at h, Or.inl (by simp)⟩
        · rcases (ih (next_token content pos).2 cmd_init (cur :: rest)) with ⟨ha, hb, hc⟩
          refine ⟨ha, hb, Or.inr ?_⟩
          rcases hc with hc | hc
          · exact hc
          · exact hc
    | T_AMP =>
      simp only [parse_loop, hk, parse_finish]
      split
      · exact ⟨fun h => by simp at h, fun h => by simp at h, Or.inl (by simp)⟩
      · split
        · rename_i hemp
          exact ⟨fun _ => hemp, fun h => by simp at h, Or.inl (by simp)⟩
        · rename_i hemp
          exact ⟨fun h => by simp at h, fun _ => hemp, Or.inl (by simp)⟩
    | T_EOF =>
      simp only [parse_loop, hk, parse_finish]
      split
      · rename_i hemp
        exact ⟨fun _ => hemp, fun h => by simp at h, Or.inl (by simp)⟩
      · rename_i hemp
        exact ⟨fun h => by simp at h, fun _ => hemp, Or.inl (by simp)⟩
    | T_DBANG =>
      simp only [parse_loop, hk]
      exact ⟨fun h => by simp at h, fun h => by simp at h, Or.inl (by simp)⟩

-- ### Lines made of plain words (argument-cap overflow, C7)

theorem getElem?_of_drop_cons (content : List Char) (pos : Nat) (c : Char)
    (s : List Char) (h : content.drop pos = c :: s) : content[pos]? = some c := by
  have h0 : (content.drop pos)[0]? = some c := by rw [h, List.getElem?_cons_zero]
  rwa [List.getElem?_drop, Nat.add_zero] at h0

theorem drop_succ_of_drop_cons (content : List Char) (pos : Nat) (c : Char)
    (s : List Char) (h : content.drop pos = c :: s) :
    content.drop (pos + 1) = s := by
  rw [← List.drop_drop 1 pos content, h, List.drop_one, List.tail_cons]

theorem add_arg_argc (c : Cmd) (w : List Char) :
    (c.add_arg w).argc = c.argc + 1 := by
  simp [Cmd.add_arg, Cmd.argc]

/-- The given words separated by single spaces. -/
def words_line : List (List Char) → List Char
  | [] => []
  | [w] => w
  | w :: w2 :: ws => w ++ ' ' :: words_line (w2 :: ws)

/-- A nonempty word of ordinary characters, lexed verbatim as one T_WORD
    token. -/
def plain_word (w : List Char) : Prop :=
  w ≠ [] ∧ ∀ c ∈ w, is_word c = true ∧ c ≠ '\n' ∧ c ≠ '!'

instance plain_word_dec : DecidablePred plain_word := fun w =>
  decidable_of_iff (w ≠ [] ∧ ∀ c ∈ w, is_word c = true ∧ c ≠ '\n' ∧ c ≠ '!')
    Iff.rfl

theorem words_line_length : ∀ ws : List (List Char), (∀ w ∈ ws, w ≠ []) →
    ws.length ≤ (words_line ws).length := by
  intro ws
  induction ws with
  | nil => intro _; simp [words_line]
  | cons w ws' ih =>
    intro h
    cases ws' with
    | nil =>
      have hw : w ≠ [] := h w (by simp)
      have : 0 < w.length := List.length_pos.mpr hw
      simpa [words_line] using this
    | cons w2 ws'' =>
      have hih := ih fun x hx => h x (by simp [hx])
      have hw : w ≠ [] := h w (by simp)
      have hwl : 0 < w.length := List.length_pos.mpr hw
      simp only [words_line, List.length_append, List.length_cons] at *
      omega

theorem parse_loop_words_overflow (content : List Char) :
    ∀ ws : List (List Char), (∀ w ∈ ws, plain_word w) →
      ∀ fuel pos cur rest, content.drop pos = words_line ws → ws ≠ [] →
        MAX_ARGS < cur.argc + ws.length → ws.length ≤ fuel →
        (parse_loop content fuel pos cur rest).1 = -1 := by
  intro ws
  induction ws with
  | nil =>
    intro _ _ _ _ _ _ hne
    exact absurd rfl hne
  | cons w ws' ih =>
    intro hpl fuel pos cur rest hd hne hcap hfuel
    obtain ⟨hwne, hwc⟩ := hpl w (by simp)
    obtain ⟨f, rfl⟩ : ∃ f, fuel = f + 1 := by
      cases fuel with
      | zero => simp at hfuel
      | succ f => exact ⟨f, rfl⟩
    cases ws' with
    | nil =>
      have hnt := next_token_word content pos w [] (by simpa [words_line] using hd)
        hwne hwc (Or.inl rfl)
      have hk : (next_token content pos).1.kind = .T_WORD := by rw [hnt]
      have hcap' : MAX_ARGS ≤ cur.argc := by
        simp only [List.length_cons, List.length_nil] at hcap
        omega
      rw [parse_loop_word_cap content f pos cur rest hk hcap']
    | cons w2 ws'' =>
      have hd' : content.drop pos = w ++ ' ' :: words_line (w2 :: ws'') := by
        simpa [words_line] using hd
      have hnt := next_token_word content pos w (' ' :: words_line (w2 :: ws'')) hd'
        hwne hwc (Or.inr ⟨' ', words_line (w2 :: ws''), rfl, by decide⟩)
      have hk : (next_token content pos).1.kind = .T_WORD := by rw [hnt]
      by_cases hcm : MAX_ARGS ≤ cur.argc
      · rw [parse_loop_word_cap content f pos cur rest hk hcm]
      · have hdrop2 : content.drop (pos + w.length) = ' ' :: words_line (w2 :: ws'') := by
          rw [← List.drop_drop w.length pos content, hd', List.drop_left]
        have hsp : content[pos + w.length]? = some ' ' :=
          getElem?_of_drop_cons content _ _ _ hdrop2
        have hstep : next_token content (pos + w.length) =
            next_token content (pos + w.length + 1) :=
          next_token_ws_step content _ ' ' hsp (by decide)
        have hdrop3 : content.drop (pos + w.length + 1) = words_line (w2 :: ws'') :=
          drop_succ_of_drop_cons content _ _ _ hdrop2
        simp only [parse_loop, hk, if_neg hcm, hnt]
        rw [parse_loop_congr content (pos + w.length) (pos + w.length + 1) hstep]
        apply ih (fun x hx => hpl x (by simp [hx])) f (pos + w.length + 1)
          (cur.add_arg w) rest hdrop3 (by simp)
        · simp only [add_arg_argc, List.length_cons] at *
          omega
        · simp only [List.length_cons] at hfuel ⊢
          omega

/-- Any line of strictly more than MAX_ARGS plain space-separated words
    makes parse_cmd return -1 (TooManyArguments). -/
theorem parse_cmd_words_overflow (ws : List (List Char))
    (hpl : ∀ w ∈ ws, plain_word w) (hcap : MAX_ARGS < ws.length) :
    (parse_cmd (words_line ws) cmd_init).1 = -1 := by
  obtain ⟨w, ws', rfl⟩ : ∃ w ws', ws = w :: ws' := by
    cases ws with
    | nil => simp [MAX_ARGS, MAX_LINE] at hcap
    | cons w ws' => exact ⟨w, ws', rfl⟩
  obtain ⟨hwne, hwc⟩ := hpl w (by simp)
  have hd0 : (words_line (w :: ws')).drop 0 = words_line (w :: ws') := List.drop_zero _
  have hk : (next_token (words_line (w :: ws')) 0).1.kind = .T_WORD := by
    cases ws' with
    | nil =>
      rw [next_token_word (words_line [w]) 0 w [] (by simp [words_line]) hwne hwc
        (Or.inl rfl)]
    | cons w2 ws'' =>
      rw [next_token_word (words_line (w :: w2 :: ws'')) 0 w
        (' ' :: words_line (w2 :: ws'')) (by simp [words_line]) hwne hwc
        (Or.inr ⟨' ', words_line (w2 :: ws''), rfl, by decide⟩)]
  have hnd : ¬((next_token (words_line (w :: ws')) 0).1.kind = .T_DBANG) := by
    rw [hk]; decide
  have hlen : (w :: ws').length ≤ (words_line (w :: ws')).length + 2 := by
    have := words_line_length (w :: ws') fun x hx => (hpl x hx).1
    omega
  simp only [parse_cmd, if_neg hnd]
  exact parse_loop_words_overflow (words_line (w :: ws')) (w :: ws') hpl
    ((words_line (w :: ws')).length + 2) 0 cmd_init [] hd0 (by simp) (by
      simpa [cmd_init, Cmd.argc] using hcap) hlen

theorem post_parse_snd (c : Cmd) (r : List Cmd) (p : List Char) :
    (post_parse c r p).2 = p := by
  unfold post_parse
  split <;> rfl

-- ### Claims

/-- C1: parsing the line a | b | c succeeds and yields a chain of exactly
    three nodes linked tail-to-head: the head node has arguments [c], its
    upstream has arguments [b], whose upstream has arguments [a], whose
    upstream is empty; and in general, consuming a pipe token (checks
    passed) detaches the node accumulated so far as the new empty current
    node's upstream, so the last command written becomes the chain head. -/
theorem C1_pipe_chain :
    (parse_cmd "a | b | c".data cmd_init =
      (0, ⟨[['c']], false, false, none, none⟩,
          [⟨[['b']], false, false, none, none⟩,
           ⟨[['a']], false, false, none, none⟩])) ∧
    (∀ content fuel pos cur rest,
      (next_token content pos).1.kind = .T_PIPE →
      ¬(cur.argc = 0 ∧ cur.redir_in_path = none ∧ cur.redir_out_path = none) →
      cur.redir_out_path = none →
      parse_loop content (fuel + 1) pos cur rest =
        parse_loop content fuel (next_token content pos).2 cmd_init (cur :: rest)) :=
  ⟨by decide, parse_loop_pipe_step⟩

theorem C1_pipe_chain_witness :
    parse_loop "a|b".data (3 + 1) 1 ⟨[['a']], false, false, none, none⟩ [] =
      parse_loop "a|b".data 3 (next_token "a|b".data 1).2 cmd_init
        [⟨[['a']], false, false, none, none⟩] :=
  C1_pipe_chain.2 "a|b".data 3 1 ⟨[['a']], false, false, none, none⟩ []
    (by decide) (by decide) rfl

/-- C2: every chain a successful parse returns satisfies the structural
    invariant: each node carries at most one input and one output
    redirection path (the Option fields hold at most one path, and the
    parser rejects a duplicate redirection of either kind with -2), a pipe
    sink (a node with an upstream link) never has an input redirection, and
    a pipe source (a node that is some node's upstream) never has an output
    redirection. -/
theorem C2_chain_invariant :
    (∀ content : List Char, (parse_cmd content cmd_init).1 = 0 →
      sink_ok ((parse_cmd content cmd_init).2.1 ::
               (parse_cmd content cmd_init).2.2) = true ∧
      src_ok ((parse_cmd content cmd_init).2.1 ::
              (parse_cmd content cmd_init).2.2) = true) ∧
    (∀ content fuel pos cur rest, (next_token content pos).1.kind = .T_IN →
      cur.redir_in_path ≠ none →
      parse_loop content (fuel + 1) pos cur rest = (-2, cur, rest)) ∧
    (∀ content fuel pos cur rest, (next_token content pos).1.kind = .T_OUT →
      cur.redir_out_path ≠ none →
      parse_loop content (fuel + 1) pos cur rest = (-2, cur, rest)) := by
  refine ⟨?_, parse_loop_in_dup, parse_loop_out_dup⟩
  intro content hc
  by_cases hk : (next_token content 0).1.kind = .T_DBANG
  · by_cases h2 : (next_token content (next_token content 0).2).1.kind ≠ .T_EOF
    · have he : parse_cmd content cmd_init = (-2, cmd_init, []) := by
        simp only [parse_cmd, if_pos hk, if_pos h2]
      rw [he] at hc
      exact absurd hc (by decide)
    · have he : parse_cmd content cmd_init =
          (0, { cmd_init with uses_history := true }, []) := by
        simp only [parse_cmd, if_pos hk, if_neg h2]
      rw [he]
      exact ⟨by simp [sink_ok], by simp [src_ok, outs_ok]⟩
  · have he : parse_cmd content cmd_init =
        parse_loop content (content.length + 2) 0 cmd_init [] := by
      simp only [parse_cmd, if_neg hk]
    rw [he]
    exact parse_loop_inv content _ 0 cmd_init [] (by simp [sink_ok])
      (by simp [src_ok, outs_ok])

theorem C2_chain_invariant_witness :
    (sink_ok ((parse_cmd "a | b".data cmd_init).2.1 ::
              (parse_cmd "a | b".data cmd_init).2.2) = true ∧
     src_ok ((parse_cmd "a | b".data cmd_init).2.1 ::
             (parse_cmd "a | b".data cmd_init).2.2) = true) ∧
    parse_loop "< x".data (0 + 1) 0 ⟨[], false, false, some ['f'], none⟩ [] =
      (-2, ⟨[], false, false, some ['f'], none⟩, []) ∧
    parse_loop "> x".data (0 + 1) 0 ⟨[], false, false, none, some ['f']⟩ [] =
      (-2, ⟨[], false, false, none, some ['f']⟩, []) :=
  ⟨C2_chain_invariant.1 "a | b".data (by decide),
   C2_chain_invariant.2.1 "< x".data 0 0 ⟨[], false, false, some ['f'], none⟩ []
     (by decide) (by decide),
   C2_chain_invariant.2.2 "> x".data 0 0 ⟨[], false, false, none, some ['f']⟩ []
     (by decide) (by decide)⟩

/-- C3: consuming a pipe token returns -2 (SyntaxError) when the node
    accumulated so far has no argument and no redirection (empty left-hand
    side) or already has an output redirection; in particular
    a > out.txt | b is rejected with -2. -/
theorem C3_pipe_rejections :
    (∀ content fuel pos cur rest, (next_token content pos).1.kind = .T_PIPE →
      ((cur.argc = 0 ∧ cur.redir_in_path = none ∧ cur.redir_out_path = none) ∨
       cur.redir_out_path ≠ none) →
      parse_loop content (fuel + 1) pos cur rest = (-2, cur, rest)) ∧
    (parse_cmd "a > out.txt | b".data cmd_init).1 = -2 :=
  ⟨parse_loop_pipe_err, by decide⟩

theorem C3_pipe_rejections_witness :
    parse_loop "|".data (0 + 1) 0 cmd_init [] = (-2, cmd_init, []) ∧
    parse_loop "| b".data (1 + 1) 0 ⟨[['a']], false, false, none, some ['f']⟩ [] =
      (-2, ⟨[['a']], false, false, none, some ['f']⟩, []) :=
  ⟨C3_pipe_rejections.1 "|".data 0 0 cmd_init [] (by decide) (Or.inl (by decide)),
   C3_pipe_rejections.1 "| b".data 1 0 ⟨[['a']], false, false, none, some ['f']⟩ []
     (by decide) (Or.inr (by decide))⟩

/-- C6: consuming an ampersand token marks the current head node as
    background (in both outcomes of the branch is_background is set), and
    the very next token must be end-of-input, otherwise the parse returns
    -2 (SyntaxError); in particular a & b is rejected with -2. -/
theorem C6_background_must_end :
    (∀ content fuel pos cur rest, (next_token content pos).1.kind = .T_AMP →
      parse_loop content (fuel + 1) pos cur rest =
        if (next_token content (next_token content pos).2).1.kind ≠ .T_EOF
          then (-2, { cur with is_background := true }, rest)
          else parse_finish { cur with is_background := true } rest) ∧
    (parse_cmd "a & b".data cmd_init).1 = -2 :=
  ⟨parse_loop_amp, by decide⟩

theorem C6_background_must_end_witness :
    parse_loop "a & b".data (2 + 1) 1 ⟨[['a']], false, false, none, none⟩ [] =
      (if (next_token "a & b".data (next_token "a & b".data 1).2).1.kind ≠ .T_EOF
        then (-2, ⟨[['a']], true, false, none, none⟩, ([] : List Cmd))
        else parse_finish ⟨[['a']], true, false, none, none⟩ []) :=
  C6_background_must_end.1 "a & b".data 2 1 ⟨[['a']], false, false, none, none⟩ []
    (by decide)

/-- C9 counterexample: lexing a line-feed inside a word run is NOT treated
    as end-of-input: on the line a(lf)b the token produced at position 0 is
    one word of span size 3 containing the character after the line-feed
    (the line-feed sits at index 1), and the result differs from lexing the
    buffer truncated at the line-feed. -/
theorem C9_counterexample :
    (next_token "a\nb".data 0).1.kind = .T_WORD ∧
    (next_token "a\nb".data 0).1.word = some "a\nb".data ∧
    (next_token "a\nb".data 0).1.pos.start = 0 ∧
    (next_token "a\nb".data 0).1.pos.size = 3 ∧
    "a\nb".data[1]? = some '\n' ∧
    next_token "a\nb".data 0 ≠ next_token "a".data 0 := by decide

/-- C9 amended: next_token yields the end-of-input token exactly when the
    first character at or after the whitespace-skipped cursor is absent or
    is a line-feed; but a line-feed strictly inside a word run is a word
    character (is_word accepts it), so the lexer can produce a word token
    containing text located after a line-feed. -/
theorem C9_linefeed :
    (∀ (content : List Char) (pos : Nat),
      ((next_token content pos).1.kind = .T_EOF ↔
        (content[skip_ws content pos]? = none ∨
         content[skip_ws content pos]? = some '\n'))) ∧
    is_word '\n' = true ∧
    (next_token "a\nb".data 0).1.word = some "a\nb".data :=
  ⟨next_token_eof_iff, by decide, by decide⟩

/-- C4: parsing (from a freshly initialised node) returns 1 (EmptyInput)
    exactly when the run ends regularly with a head node that has no
    arguments and no redirections and no history signal; a line of only
    whitespace parses to EmptyInput, as does a trailing dangling pipe with
    nothing parseable after it (a |); and a line whose parse is EmptyInput
    makes main create no process. -/
theorem C4_empty_input :
    (∀ content : List Char,
      ((parse_cmd content cmd_init).1 = 1 ↔
        (((parse_cmd content cmd_init).1 = 0 ∨ (parse_cmd content cmd_init).1 = 1) ∧
         (parse_cmd content cmd_init).2.1.argc = 0 ∧
         (parse_cmd content cmd_init).2.1.redir_in_path = none ∧
         (parse_cmd content cmd_init).2.1.redir_out_path = none ∧
         (parse_cmd content cmd_init).2.1.uses_history = false))) ∧
    (∀ content : List Char, (∀ c ∈ content, is_ws c = true) →
      parse_cmd content cmd_init = (1, cmd_init, [])) ∧
    (parse_cmd "a |".data cmd_init).1 = 1 ∧
    (∀ prev buf : List Char, (parse_cmd (strip_line buf) cmd_init).1 = 1 →
      creates_process (main_cycle prev buf).1 = false) := by
  refine ⟨?_, ?_, by decide, ?_⟩
  · intro content
    by_cases hk : (next_token content 0).1.kind = .T_DBANG
    · by_cases h2 : (next_token content (next_token content 0).2).1.kind ≠ .T_EOF
      · have he : parse_cmd content cmd_init = (-2, cmd_init, []) := by
          simp only [parse_cmd, if_pos hk, if_pos h2]
        rw [he]
        simp
      · have he : parse_cmd content cmd_init =
            (0, { cmd_init with uses_history := true }, []) := by
          simp only [parse_cmd, if_pos hk, if_neg h2]
        rw [he]
        simp [cmd_init]
    · have he : parse_cmd content cmd_init =
          parse_loop content (content.length + 2) 0 cmd_init [] := by
        simp only [parse_cmd, if_neg hk]
      rw [he]
      obtain ⟨hc1, hc0, hh⟩ := parse_loop_codes content (content.length + 2) 0 cmd_init []
      have hh' : (parse_loop content (content.length + 2) 0 cmd_init []).2.1.uses_history
          = false := by
        rcases hh with hh | hh
        · simpa [cmd_init] using hh
        · exact hh
      constructor
      · intro h1
        exact ⟨Or.inr h1, (hc1 h1).1, (hc1 h1).2.1, (hc1 h1).2.2, hh'⟩
      · rintro ⟨hor, hargc, hin, hout, -⟩
        rcases hor with h0 | h1
        · exact absurd ⟨hargc, hin, hout⟩ (hc0 h0)
        · exact h1
  · intro content hws
    have hsk : skip_ws content 0 = content.length :=
      skip_ws_all_ws content hws content.length 0 (by omega) (Nat.zero_le _)
    have hnone : content[content.length]? = none := List.getElem?_len_le (le_refl _)
    have hmin : min (content.length + 1) content.length = content.length := by omega
    have hnt : next_token content 0 =
        (⟨.T_EOF, ⟨content.length, 1⟩, none⟩, content.length) := by
      simp [next_token, lex_peek, hsk, hnone, make_n_char_token, lex_advance, hmin]
    have hknd : ¬((next_token content 0).1.kind = .T_DBANG) := by
      rw [hnt]; simp
    simp only [parse_cmd, if_neg hknd]
    have hstep : parse_loop content (content.length + 1 + 1) 0 cmd_init [] =
        parse_finish cmd_init [] := by
      simp only [parse_loop, hnt]
    have : parse_loop content (content.length + 2) 0 cmd_init [] =
        parse_loop content (content.length + 1 + 1) 0 cmd_init [] := rfl
    rw [this, hstep]
    simp [parse_finish, cmd_init, Cmd.argc]
  · intro prev buf h
    by_cases hl : strip_line buf = []
    · simp [main_cycle, hl, creates_process]
    · by_cases hex : strip_line buf = "exit".data
      · simp [main_cycle, hl, hex, creates_process]
      · simp [main_cycle, hl, hex, h, creates_process]

theorem C4_empty_input_witness :
    parse_cmd "  ".data cmd_init = (1, cmd_init, []) ∧
    creates_process (main_cycle [] " ".data).1 = false :=
  ⟨C4_empty_input.2.1 "  ".data (by decide),
   C4_empty_input.2.2.2 [] " ".data (by decide)⟩

/-- C5: a history-repeat token as first token requires the next token to be
    end-of-input, else the parse returns -2 (SyntaxError); on success the
    parse returns 0 with uses_history set, no arguments and no chain; main
    with an empty history slot then reports no_history and creates no
    process; when the slot is nonempty main reparses the cached line into
    the same node, reporting the distinct history_error outcome if that
    reparse does not return 0, and otherwise continuing exactly with the
    reparsed chain. -/
theorem C5_history_repeat :
    (∀ content : List Char, (next_token content 0).1.kind = .T_DBANG →
      (next_token content (next_token content 0).2).1.kind ≠ .T_EOF →
      (parse_cmd content cmd_init).1 = -2) ∧
    (∀ content : List Char, (next_token content 0).1.kind = .T_DBANG →
      (next_token content (next_token content 0).2).1.kind = .T_EOF →
      parse_cmd content cmd_init = (0, { cmd_init with uses_history := true }, [])) ∧
    (∀ buf : List Char, strip_line buf ≠ [] → strip_line buf ≠ "exit".data →
      (parse_cmd (strip_line buf) cmd_init).1 = 0 →
      (parse_cmd (strip_line buf) cmd_init).2.1.uses_history = true →
      main_cycle [] buf = (.no_history, []) ∧
      creates_process (main_cycle [] buf).1 = false) ∧
    (∀ prev buf : List Char, strip_line buf ≠ [] → strip_line buf ≠ "exit".data →
      (parse_cmd (strip_line buf) cmd_init).1 = 0 →
      (parse_cmd (strip_line buf) cmd_init).2.1.uses_history = true →
      prev ≠ [] →
      (parse_cmd prev (parse_cmd (strip_line buf) cmd_init).2.1).1 ≠ 0 →
      main_cycle prev buf = (.history_error, prev)) ∧
    (∀ prev buf : List Char, strip_line buf ≠ [] → strip_line buf ≠ "exit".data →
      (parse_cmd (strip_line buf) cmd_init).1 = 0 →
      (parse_cmd (strip_line buf) cmd_init).2.1.uses_history = true →
      prev ≠ [] →
      (parse_cmd prev (parse_cmd (strip_line buf) cmd_init).2.1).1 = 0 →
      main_cycle prev buf =
        post_parse (parse_cmd prev (parse_cmd (strip_line buf) cmd_init).2.1).2.1
          (parse_cmd prev (parse_cmd (strip_line buf) cmd_init).2.1).2.2 prev) := by
  refine ⟨?_, ?_, ?_, ?_, ?_⟩
  · intro content h1 h2
    simp only [parse_cmd, if_pos h1, if_pos h2]
  · intro content h1 h2
    simp only [parse_cmd, if_pos h1]
    rw [if_neg (by simp [h2])]
  · intro buf h1 h2 h3 h4
    have e1 : ¬((parse_cmd (strip_line buf) cmd_init).1 = 1) := by
      rw [h3]; decide
    have e2 : ¬((parse_cmd (strip_line buf) cmd_init).1 = -1) := by
      rw [h3]; decide
    have e3 : ¬((parse_cmd (strip_line buf) cmd_init).1 = -2) := by
      rw [h3]; decide
    constructor
    · simp [main_cycle, h1, h2, e1, e2, e3, h4]
    · simp [main_cycle, h1, h2, e1, e2, e3, h4, creates_process]
  · intro prev buf h1 h2 h3 h4 hp hr2
    have e1 : ¬((parse_cmd (strip_line buf) cmd_init).1 = 1) := by
      rw [h3]; decide
    have e2 : ¬((parse_cmd (strip_line buf) cmd_init).1 = -1) := by
      rw [h3]; decide
    have e3 : ¬((parse_cmd (strip_line buf) cmd_init).1 = -2) := by
      rw [h3]; decide
    simp [main_cycle, h1, h2, e1, e2, e3, h4, hp, hr2]
  · intro prev buf h1 h2 h3 h4 hp hr2
    have e1 : ¬((parse_cmd (strip_line buf) cmd_init).1 = 1) := by
      rw [h3]; decide
    have e2 : ¬((parse_cmd (strip_line buf) cmd_init).1 = -1) := by
      rw [h3]; decide
    have e3 : ¬((parse_cmd (strip_line buf) cmd_init).1 = -2) := by
      rw [h3]; decide
    simp [main_cycle, h1, h2, e1, e2, e3, h4, hp, hr2]

theorem C5_history_repeat_witness :
    (parse_cmd "!! x".data cmd_init).1 = -2 ∧
    parse_cmd "!!".data cmd_init = (0, { cmd_init with uses_history := true }, []) ∧
    (main_cycle [] "!!".data = (.no_history, []) ∧
     creates_process (main_cycle [] "!!".data).1 = false) ∧
    main_cycle "|".data "!!".data = (.history_error, "|".data) ∧
    main_cycle "ls".data "!!".data =
      post_parse (parse_cmd "ls".data
          (parse_cmd (strip_line "!!".data) cmd_init).2.1).2.1
        (parse_cmd "ls".data
          (parse_cmd (strip_line "!!".data) cmd_init).2.1).2.2 "ls".data :=
  ⟨C5_history_repeat.1 "!! x".data (by decide) (by decide),
   C5_history_repeat.2.1 "!!".data (by decide) (by decide),
   C5_history_repeat.2.2.1 "!!".data (by decide) (by decide) (by decide) (by decide),
   C5_history_repeat.2.2.2.1 "|".data "!!".data (by decide) (by decide) (by decide)
     (by decide) (by decide) (by decide),
   C5_history_repeat.2.2.2.2 "ls".data "!!".data (by decide) (by decide) (by decide)
     (by decide) (by decide) (by decide)⟩

/-- C7: a line of strictly more than MAX_ARGS plain space-separated words
    (one stage accumulating more word tokens than the cap) parses to -1
    (TooManyArguments); more precisely, whenever the loop meets a word
    token with the current stage already holding MAX_ARGS arguments it
    returns -1 immediately instead of writing past the argv buffer; and a
    line whose parse is -1 makes main print the diagnostic and create no
    process, executing no partial chain. -/
theorem C7_too_many_arguments :
    (∀ ws : List (List Char), (∀ w ∈ ws, plain_word w) → MAX_ARGS < ws.length →
      (parse_cmd (words_line ws) cmd_init).1 = -1) ∧
    (∀ content fuel pos cur rest, (next_token content pos).1.kind = .T_WORD →
      MAX_ARGS ≤ cur.argc →
      parse_loop content (fuel + 1) pos cur rest = (-1, cur, rest)) ∧
    (∀ prev buf : List Char, (parse_cmd (strip_line buf) cmd_init).1 = -1 →
      main_cycle prev buf = (.too_many_args, prev) ∧
      creates_process (main_cycle prev buf).1 = false) := by
  refine ⟨parse_cmd_words_overflow, parse_loop_word_cap, ?_⟩
  intro prev buf h
  by_cases hl : strip_line buf = []
  · rw [hl] at h
    exact absurd h (by decide)
  · by_cases hex : strip_line buf = "exit".data
    · rw [hex] at h
      exact absurd h (by decide)
    · have e1 : ¬((parse_cmd (strip_line buf) cmd_init).1 = 1) := by
        rw [h]; decide
      constructor
      · simp [main_cycle, hl, hex, e1, h]
      · simp [main_cycle, hl, hex, e1, h, creates_process]

theorem C7_too_many_arguments_witness :
    (parse_cmd (words_line (List.replicate 41 ['w'])) cmd_init).1 = -1 ∧
    parse_loop "w".data (0 + 1) 0
        ⟨List.replicate 40 ['x'], false, false, none, none⟩ [] =
      (-1, ⟨List.replicate 40 ['x'], false, false, none, none⟩, []) ∧
    (main_cycle [] (words_line (List.replicate 41 ['w'])) =
       (.too_many_args, []) ∧
     creates_process (main_cycle [] (words_line (List.replicate 41 ['w']))).1 = false) :=
  ⟨C7_too_many_arguments.1 (List.replicate 41 ['w']) (by decide) (by decide),
   C7_too_many_arguments.2.1 "w".data 0 0
     ⟨List.replicate 40 ['x'], false, false, none, none⟩ [] (by decide) (by decide),
   C7_too_many_arguments.2.2 [] (words_line (List.replicate 41 ['w'])) (by decide)⟩

/-- C8: the single-slot history store is overwritten with the (newline
    stripped) incoming line for every accepted non-history line, and is
    left unchanged by history-repeat lines and by rejected lines (and by
    the empty and exit lines).  A non-history parse never reads the slot
    (parse_cmd does not take it), so this is observably identical to the
    overwrite happening before the line is parsed for execution. -/
theorem C8_history_slot :
    (∀ prev buf : List Char, strip_line buf ≠ [] → strip_line buf ≠ "exit".data →
      (parse_cmd (strip_line buf) cmd_init).1 = 0 →
      (parse_cmd (strip_line buf) cmd_init).2.1.uses_history = false →
      (main_cycle prev buf).2 = strip_line buf) ∧
    (∀ prev buf : List Char,
      ((parse_cmd (strip_line buf) cmd_init).2.1.uses_history = true ∨
       (parse_cmd (strip_line buf) cmd_init).1 = 1 ∨
       (parse_cmd (strip_line buf) cmd_init).1 = -1 ∨
       (parse_cmd (strip_line buf) cmd_init).1 = -2) →
      (main_cycle prev buf).2 = prev) ∧
    (∀ prev buf : List Char, strip_line buf = "exit".data →
      (main_cycle prev buf).2 = prev) := by
  refine ⟨?_, ?_, ?_⟩
  · intro prev buf h1 h2 h3 h4
    have e1 : ¬((parse_cmd (strip_line buf) cmd_init).1 = 1) := by
      rw [h3]; decide
    have e2 : ¬((parse_cmd (strip_line buf) cmd_init).1 = -1) := by
      rw [h3]; decide
    have e3 : ¬((parse_cmd (strip_line buf) cmd_init).1 = -2) := by
      rw [h3]; decide
    simp [main_cycle, h1, h2, e1, e2, e3, h4, post_parse_snd]
  · intro prev buf h
    by_cases hl : strip_line buf = []
    · simp [main_cycle, hl]
    · by_cases hex : strip_line buf = "exit".data
      · simp [main_cycle, hl, hex]
      · rcases h with hist | h1 | hm1 | hm2
        · by_cases e1 : (parse_cmd (strip_line buf) cmd_init).1 = 1
          · simp [main_cycle, hl, hex, e1]
          · by_cases e2 : (parse_cmd (strip_line buf) cmd_init).1 = -1
            · simp [main_cycle, hl, hex, e1, e2]
            · by_cases e3 : (parse_cmd (strip_line buf) cmd_init).1 = -2
              · simp [main_cycle, hl, hex, e1, e2, e3]
              · by_cases hp : prev = []
                · simp [main_cycle, hl, hex, e1, e2, e3, hist, hp]
                · by_cases e4 : (parse_cmd prev
                      (parse_cmd (strip_line buf) cmd_init).2.1).1 = 0
                  · simp [main_cycle, hl, hex, e1, e2, e3, hist, hp, e4,
                      post_parse_snd]
                  · simp [main_cycle, hl, hex, e1, e2, e3, hist, hp, e4]
        · simp [main_cycle, hl, hex, h1]
        · have e1 : ¬((parse_cmd (strip_line buf) cmd_init).1 = 1) := by
            rw [hm1]; decide
          simp [main_cycle, hl, hex, e1, hm1]
        · have e1 : ¬((parse_cmd (strip_line buf) cmd_init).1 = 1) := by
            rw [hm2]; decide
          have e2 : ¬((parse_cmd (strip_line buf) cmd_init).1 = -1) := by
            rw [hm2]; decide
          simp [main_cycle, hl, hex, e1, e2, hm2]
  · intro prev buf hex
    have hl : strip_line buf ≠ [] := by
      rw [hex]; decide
    simp [main_cycle, hl, hex]

theorem C8_history_slot_witness :
    (main_cycle [] "a b".data).2 = strip_line "a b".data ∧
    (main_cycle "x".data "!!".data).2 = "x".data ∧
    (main_cycle "x".data "a |".data).2 = "x".data ∧
    (main_cycle "x".data "exit".data).2 = "x".data :=
  ⟨C8_history_slot.1 [] "a b".data (by decide) (by decide) (by decide) (by decide),
   C8_history_slot.2.1 "x".data "!!".data (Or.inl (by decide)),
   C8_history_slot.2.1 "x".data "a |".data (Or.inr (Or.inl (by decide))),
   C8_history_slot.2.2 "x".data "exit".data (by decide)⟩

/-- C10 counterexample: the line with an input redirection piped into b
    parses successfully, its head node has an argument, so the cycle forks
    and executes the chain, and the upstream stage's argv is empty: execvp
    is invoked with an empty argument vector during this cycle. -/
theorem C10_counterexample :
    creates_process (main_cycle [] "< x | b".data).1 = true ∧
    [] ∈ exec_argvs (main_cycle [] "< x | b".data).1 := by decide

/-- C10 amended: whenever one cycle of the main loop forks and executes a
    chain, the head node of that chain has a nonzero argument count and a
    nonempty argv; hence for every successfully parsed line whose (post
    history substitution) head node has zero arguments, no process is
    created and exec is never reached.  The guarantee covers only the head:
    an upstream stage of an executed pipeline can still hand execvp an
    empty argument vector (see the counterexample). -/
theorem C10_head_argv_nonempty :
    ∀ prev buf cur rest, (main_cycle prev buf).1 = CycleOut.ran cur rest →
      cur.argc ≠ 0 ∧ cur.argv ≠ [] := by
  have key : ∀ (c : Cmd) (r : List Cmd) (p : List Char) (cur : Cmd) (rest : List Cmd),
      (post_parse c r p).1 = CycleOut.ran cur rest →
      cur.argc ≠ 0 ∧ cur.argv ≠ [] := by
    intro c r p cur rest hp
    unfold post_parse at hp
    split at hp
    · simp at hp
    · rename_i hne
      simp only at hp
      injection hp with hc hr
      subst hc
      refine ⟨hne, ?_⟩
      intro hnil
      rw [Cmd.argc, hnil] at hne
      exact hne rfl
  intro prev buf cur rest h
  simp only [main_cycle] at h
  split at h
  · simp at h
  · split at h
    · simp at h
    · split at h
      · simp at h
      · split at h
        · simp at h
        · split at h
          · simp at h
          · split at h
            · split at h
              · simp at h
              · split at h
                · simp at h
                · exact key _ _ _ _ _ h
            · exact key _ _ _ _ _ h

theorem C10_head_argv_nonempty_witness :
    (⟨[['a']], false, false, none, none⟩ : Cmd).argc ≠ 0 ∧
    (⟨[['a']], false, false, none, none⟩ : Cmd).argv ≠ [] :=
  C10_head_argv_nonempty [] "a".data ⟨[['a']], false, false, none, none⟩ []
    (by decide)

end Osh
